import Mathlib

/-!
Shallow embedding of the Whisper repository (BIP-352 "Silent Payments"
infrastructure) and proofs about its claims.

The cryptographic core (`whisper-core/src/lib.rs`) is embedded over concrete
arithmetic: SHA-256 over byte lists, and secp256k1 group operations over
`Nat` coordinates with explicit modular reduction.  Bytes are `Nat` values
kept below 256 by construction.  The server-side pieces
(`whisper-server/src/indexer.rs`, `whisper-server/src/api.rs`) are embedded
as pure functions of their inputs, with the database query result passed in
as an explicit list of rows.
-/

/-- Word addition modulo 2^32, as performed on `u32` in the source. -/
def add32 (a b : Nat) : Nat := (a + b) % 4294967296

/-- Right rotation of a 32-bit word `w` (assumed < 2^32) by `k` bits. -/
def rotr32 (k w : Nat) : Nat := (w >>> k) ||| ((w % (2 ^ k)) <<< (32 - k))

/-- Right shift of a 32-bit word. -/
def shr32 (k w : Nat) : Nat := w >>> k

/-- Big-endian interpretation of a byte list as a natural number. -/
def beNat (bs : List Nat) : Nat := bs.foldl (fun acc b => acc * 256 + b) 0

/-- Big-endian serialization of `x` into `len` bytes (truncating above 2^(8*len)). -/
def beBytes (len x : Nat) : List Nat :=
  (List.range len).map (fun i => (x >>> (8 * (len - 1 - i))) % 256)

/-- SHA-256 round constants (fractional parts of cube roots of the first 64 primes). -/
def k256 : List Nat := [
1116352408, 1899447441, 3049323471, 3921009573, 961987163, 1508970993, 2453635748, 2870763221, 3624381080, 310598401, 607225278, 1426881987, 1925078388, 2162078206, 2614888103, 3248222580, 3835390401, 4022224774, 264347078, 604807628, 770255983, 1249150122, 1555081692, 1996064986, 2554220882, 2821834349, 2952996808, 3210313671, 3336571891, 3584528711, 113926993, 338241895, 666307205, 773529912, 1294757372, 1396182291, 1695183700, 1986661051, 2177026350, 2456956037, 2730485921, 2820302411, 3259730800, 3345764771, 3516065817, 3600352804, 4094571909, 275423344, 430227734, 506948616, 659060556, 883997877, 958139571, 1322822218, 1537002063, 1747873779, 1955562222, 2024104815, 2227730452, 2361852424, 2428436474, 2756734187, 3204031479, 3329325298]

/-- SHA-256 initial hash state. -/
def h256init : List Nat :=
  [1779033703, 3144134277, 1013904242, 2773480762, 1359893119, 2600822924, 528734635, 1541459225]

/-- SHA-256 message padding: append `0x80`, zero bytes, and the 64-bit
big-endian bit length, reaching a multiple of 64 bytes. -/
def sha256pad (msg : List Nat) : List Nat :=
  let l := msg.length
  let zeros := (55 + 64 - l % 64) % 64
  msg ++ [128] ++ List.replicate zeros 0 ++ beBytes 8 (8 * l)

/-- Split a byte list into big-endian 32-bit words, four bytes per word. -/
def bytesToWords : List Nat → List Nat
  | b0 :: b1 :: b2 :: b3 :: rest =>
      (((b0 * 256 + b1) * 256 + b2) * 256 + b3) :: bytesToWords rest
  | _ => []

/-- Split a list into chunks of 16 elements (the 512-bit blocks as words). -/
def chunk16 : List Nat → List (List Nat)
  | w0 :: w1 :: w2 :: w3 :: w4 :: w5 :: w6 :: w7 ::
    w8 :: w9 :: w10 :: w11 :: w12 :: w13 :: w14 :: w15 :: rest =>
      [w0, w1, w2, w3, w4, w5, w6, w7, w8, w9, w10, w11, w12, w13, w14, w15]
        :: chunk16 rest
  | _ => []

/-- SHA-256 small sigma 0. -/
def ssig0 (w : Nat) : Nat := (rotr32 7 w) ^^^ (rotr32 18 w) ^^^ (shr32 3 w)

/-- SHA-256 small sigma 1. -/
def ssig1 (w : Nat) : Nat := (rotr32 17 w) ^^^ (rotr32 19 w) ^^^ (shr32 10 w)

/-- SHA-256 big sigma 0. -/
def bsig0 (w : Nat) : Nat := (rotr32 2 w) ^^^ (rotr32 13 w) ^^^ (rotr32 22 w)

/-- SHA-256 big sigma 1. -/
def bsig1 (w : Nat) : Nat := (rotr32 6 w) ^^^ (rotr32 11 w) ^^^ (rotr32 25 w)

/-- Message schedule: extend 16 block words to 64 words. -/
def schedule (block : List Nat) : List Nat :=
  (List.range 48).foldl
    (fun w _ =>
      w ++ [add32 (add32 (ssig1 (w.getD (w.length - 2) 0)) (w.getD (w.length - 7) 0))
              (add32 (ssig0 (w.getD (w.length - 15) 0)) (w.getD (w.length - 16) 0))])
    block

/-- One SHA-256 compression round. -/
def round256 (st : Nat × Nat × Nat × Nat × Nat × Nat × Nat × Nat) (kw : Nat × Nat) :
    Nat × Nat × Nat × Nat × Nat × Nat × Nat × Nat :=
  match st, kw with
  | (a, b, c, d, e, f, g, h), (k, w) =>
    let ch := (e &&& f) ^^^ ((4294967295 - e) &&& g)
    let t1 := add32 h (add32 (bsig1 e) (add32 ch (add32 k w)))
    let maj := (a &&& b) ^^^ (a &&& c) ^^^ (b &&& c)
    let t2 := add32 (bsig0 a) maj
    (add32 t1 t2, a, b, c, add32 d t1, e, f, g)

/-- Compress one 16-word block into the running 8-word state. -/
def compress (hs : List Nat) (block : List Nat) : List Nat :=
  let ws := schedule block
  match hs with
  | [h0, h1, h2, h3, h4, h5, h6, h7] =>
    let fin := (k256.zip ws).foldl round256 (h0, h1, h2, h3, h4, h5, h6, h7)
    match fin with
    | (a, b, c, d, e, f, g, h) =>
      [add32 h0 a, add32 h1 b, add32 h2 c, add32 h3 d,
       add32 h4 e, add32 h5 f, add32 h6 g, add32 h7 h]
  | _ => hs

/-- SHA-256 of a byte list, as a 32-byte list. -/
def sha256 (msg : List Nat) : List Nat :=
  let blocks := chunk16 (bytesToWords (sha256pad msg))
  (blocks.foldl compress h256init).foldr (fun w acc => beBytes 4 w ++ acc) []

/-- Field prime of secp256k1. -/
def secpP : Nat := 115792089237316195423570985008687907853269984665640564039457584007908834671663

/-- Group order of secp256k1. -/
def secpN : Nat := 115792089237316195423570985008687907852837564279074904382605163141518161494337

/-- X coordinate of the secp256k1 base point. -/
def secpGx : Nat := 55066263022277343669578718895168534326250603453777594175500187360389116729240

/-- Y coordinate of the secp256k1 base point. -/
def secpGy : Nat := 32670510020758816978083085130507043184471273380659243275938904335757337482424

/-- Modular exponentiation by square-and-multiply over the low-to-high bits
of the exponent; the fuel argument (256 suffices for exponents below 2^256)
keeps the recursion structural. -/
def powModAux (m : Nat) : Nat → Nat → Nat → Nat → Nat
  | 0, _, _, acc => acc
  | fuel + 1, b, e, acc =>
    if e = 0 then acc
    else powModAux m fuel (b * b % m) (e / 2) (if e % 2 = 1 then acc * b % m else acc)

/-- Modular exponentiation, sound for exponents below 2^256. -/
def powMod (b e m : Nat) : Nat := powModAux m 256 (b % m) e (1 % m)

/-- Modular inverse in the secp256k1 base field, via Fermat. -/
def finv (a : Nat) : Nat := powMod a (secpP - 2) secpP

/-- Affine secp256k1 point; `none` is the point at infinity. -/
def Pt : Type := Option (Nat × Nat)

/-- Group addition on secp256k1 in affine coordinates. -/
def ptAdd (P Q : Pt) : Pt :=
  match P, Q with
  | none, q => q
  | p, none => p
  | some (x1, y1), some (x2, y2) =>
    if x1 = x2 then
      if (y1 + y2) % secpP = 0 then none
      else
        let lam := 3 * x1 * x1 % secpP * finv (2 * y1 % secpP) % secpP
        let x3 := (lam * lam + 2 * secpP - x1 - x2) % secpP
        some (x3, (lam * ((x1 + secpP - x3) % secpP) + secpP - y1 % secpP) % secpP)
    else
      let lam := ((y2 + secpP - y1) % secpP) * finv ((x2 + secpP - x1) % secpP) % secpP
      let x3 := (lam * lam + 2 * secpP - x1 - x2) % secpP
      some (x3, (lam * ((x1 + secpP - x3) % secpP) + secpP - y1 % secpP) % secpP)

/-- Jacobian-coordinate point (X, Y, Z), representing the affine point
(X/Z^2, Y/Z^3); `none` is the point at infinity.  libsecp256k1 performs its
group arithmetic in these coordinates. -/
def Jac : Type := Option (Nat × Nat × Nat)

/-- Jacobian doubling on secp256k1 (a = 0 curve). -/
def jacDouble (P : Jac) : Jac :=
  match P with
  | none => none
  | some (x, y, z) =>
    if y = 0 then none
    else
      let a := x * x % secpP
      let b := y * y % secpP
      let c := b * b % secpP
      let d := 2 * ((((x + b) % secpP) * ((x + b) % secpP) + 2 * secpP - a - c) % secpP) % secpP
      let e := 3 * a % secpP
      let x3 := (e * e + 2 * secpP - 2 * d) % secpP
      let y3 := (e * ((d + secpP - x3) % secpP) + 8 * secpP * secpP - 8 * c) % secpP
      let z3 := 2 * y * z % secpP
      some (x3, y3, z3)

/-- Jacobian addition on secp256k1. -/
def jacAdd (P Q : Jac) : Jac :=
  match P, Q with
  | none, q => q
  | p, none => p
  | some (x1, y1, z1), some (x2, y2, z2) =>
    let z1z1 := z1 * z1 % secpP
    let z2z2 := z2 * z2 % secpP
    let u1 := x1 * z2z2 % secpP
    let u2 := x2 * z1z1 % secpP
    let s1 := y1 * z2z2 % secpP * z2 % secpP
    let s2 := y2 * z1z1 % secpP * z1 % secpP
    if u1 = u2 then
      if s1 = s2 then jacDouble (some (x1, y1, z1)) else none
    else
      let h := (u2 + secpP - u1) % secpP
      let i := 4 * h % secpP * h % secpP
      let j := h * i % secpP
      let r := 2 * ((s2 + secpP - s1) % secpP) % secpP
      let v := u1 * i % secpP
      let x3 := (r * r + 3 * secpP - j - 2 * v) % secpP
      let y3 := (r * ((v + secpP - x3) % secpP) + 2 * secpP * secpP - 2 * (s1 * j % secpP)) % secpP
      let z3 := 2 * z1 % secpP * z2 % secpP * h % secpP
      some (x3, y3, z3)

/-- Conversion from Jacobian to affine coordinates. -/
def jacToAffine (P : Jac) : Pt :=
  match P with
  | none => none
  | some (x, y, z) =>
    if z = 0 then none
    else
      let zi := finv z
      let zi2 := zi * zi % secpP
      some (x * zi2 % secpP, y * zi2 % secpP * zi % secpP)

/-- Conversion from affine to Jacobian coordinates. -/
def affineToJac (P : Pt) : Jac :=
  match P with
  | none => none
  | some (x, y) => some (x, y, 1)

/-- Double-and-add loop of scalar multiplication over the low-to-high bits
of the scalar, with structural fuel (256 covers scalars below 2^256). -/
def ptMulAux : Nat → Nat → Jac → Jac → Jac
  | 0, _, _, acc => acc
  | fuel + 1, k, P, acc =>
    if k = 0 then acc
    else ptMulAux fuel (k / 2) (jacDouble P)
      (if k % 2 = 1 then jacAdd acc P else acc)

/-- Scalar multiplication on secp256k1. -/
def ptMul (k : Nat) (P : Pt) : Pt :=
  jacToAffine (ptMulAux 256 k (affineToJac P) none)

/-- Base point of secp256k1. -/
def ptG : Pt := some (secpGx, secpGy)

/-- Candidate even-parity lift of an x-only coordinate: the square root of
x^3 + 7 computed by exponentiation (p = 3 mod 4), checked by squaring, with
parity normalized to even, as libsecp256k1 does when parsing an x-only key. -/
def liftEven (x : Nat) : Option Nat :=
  let a := (x * x % secpP * x + 7) % secpP
  let y := powMod a ((secpP + 1) / 4) secpP
  if y * y % secpP = a then some (if y % 2 = 0 then y else secpP - y) else none

/-- Error type of the cryptographic core (`CoreError` in
`whisper-core/src/lib.rs`); the string payloads of `InvalidKey` and
`CryptoError` are dropped as irrelevant to control flow. -/
inductive CoreError where
  | invalidKey : CoreError
  | cryptoError : CoreError
  | invalidInput : CoreError
deriving DecidableEq, Repr

/-- UTF-8 bytes of a tag string. -/
def tagBytes (s : String) : List Nat := s.data.map Char.toNat

/-- Tag constant `TaggedHash::SHARED_SECRET`. -/
def tagSharedSecret : List Nat := tagBytes ("BIP0352/SharedSecret")

/-- Tag constant `TaggedHash::OUTPUT`. -/
def tagOutput : List Nat := tagBytes ("BIP0352/Outputs")

/-- BIP-340 style tagged hash, `TaggedHash::hash` in the source:
SHA256(SHA256(tag) || SHA256(tag) || data). -/
def taggedHash (tag data : List Nat) : List Nat :=
  let th := sha256 tag
  sha256 (th ++ th ++ data)

/-- Scalar parse `Scalar::from_be_bytes`: a 32-byte big-endian value,
failing (with `OutOfRangeError` in the library) when it is not below the
group order. -/
def scalarFromBeBytes (bs : List Nat) : Option Nat :=
  let v := beNat bs
  if v < secpN then some v else none

/-- Serialization of an x-only public key (32-byte big-endian x coordinate). -/
def xonlySerialize (x : Nat) : List Nat := beBytes 32 x

/-- One step of the shared-secret loop in `ScanKey::compute_shared_secret`:
ECDH via `PublicKey::combine` (the secp256k1 point-addition operation: the
stored input point plus the point of the scan secret), x-only extraction,
tagged hash, scalar parse, and accumulation modulo the group order. -/
def sharedSecretStep (secret : Nat) (acc : Option Nat) (input : Nat × Nat) :
    Except CoreError (Option Nat) :=
  match ptAdd (some input) (ptMul secret ptG) with
  | none => Except.error CoreError.cryptoError
  | some (x, _) =>
    match scalarFromBeBytes (taggedHash tagSharedSecret (xonlySerialize x)) with
    | none => Except.error CoreError.cryptoError
    | some t =>
      match acc with
      | none => Except.ok (some t)
      | some a => Except.ok (some ((a + t) % secpN))

/-- Loop of `ScanKey::compute_shared_secret` over the input list. -/
def sharedSecretLoop (secret : Nat) (acc : Option Nat) :
    List (Nat × Nat) → Except CoreError (Option Nat)
  | [] => Except.ok acc
  | input :: rest =>
    match sharedSecretStep secret acc input with
    | Except.error e => Except.error e
    | Except.ok a2 => sharedSecretLoop secret a2 rest

/-- Model of `ScanKey::compute_shared_secret`: errors `InvalidInput` on an
empty input list, otherwise folds `sharedSecretStep` over the inputs and
serializes the accumulated scalar big-endian into 32 bytes. -/
def compute_shared_secret (secret : Nat) (inputs : List (Nat × Nat)) :
    Except CoreError (List Nat) :=
  if inputs = [] then Except.error CoreError.invalidInput
  else
    match sharedSecretLoop secret none inputs with
    | Except.error e => Except.error e
    | Except.ok none => Except.error CoreError.cryptoError
    | Except.ok (some a) => Except.ok (beBytes 32 a)

/-- Decidable equality for `Except`, used to evaluate the model on
concrete inputs. -/
instance {e a : Type} [DecidableEq e] [DecidableEq a] : DecidableEq (Except e a) := fun x y =>
  match x, y with
  | Except.ok u, Except.ok v =>
      match decEq u v with
      | isTrue h => isTrue (congrArg Except.ok h)
      | isFalse h => isFalse (fun hh => h (Except.ok.inj hh))
  | Except.error u, Except.error v =>
      match decEq u v with
      | isTrue h => isTrue (congrArg Except.error h)
      | isFalse h => isFalse (fun hh => h (Except.error.inj hh))
  | Except.ok _, Except.error _ => isFalse (fun hh => Except.noConfusion hh)
  | Except.error _, Except.ok _ => isFalse (fun hh => Except.noConfusion hh)

/-- Tweak-hash data of `ScanKey::derive_output_pubkey` and
`ScanKey::check_output`: the shared secret, extended by the label byte when
a label is present. -/
def tweakData (sharedSecret : List Nat) : Option Nat → List Nat
  | none => sharedSecret
  | some m => sharedSecret ++ [m]

/-- Tweak bytes: tagged hash of the tweak data under `BIP0352/Outputs`,
computed identically at lines 137-145 and 190-198 of the source. -/
def tweakHash (sharedSecret : List Nat) (label : Option Nat) : List Nat :=
  taggedHash tagOutput (tweakData sharedSecret label)

/-- Model of `ScanKey::derive_output_pubkey`: hash the tweak data, parse it
as a scalar (any out-of-range hash is a `CryptoError`), lift the x-only
spend key to the even-parity point (`PublicKey::from_x_only_public_key`,
whose argument is a valid key by type in the source; an invalid x falls to
`InvalidKey` here), add the tweak times the base point (`add_exp_tweak`,
failing with `CryptoError` at infinity), and return the x coordinate. -/
def derive_output_pubkey (sharedSecret : List Nat) (spendPubkey : Nat)
    (label : Option Nat) : Except CoreError Nat :=
  match scalarFromBeBytes (tweakHash sharedSecret label) with
  | none => Except.error CoreError.cryptoError
  | some t =>
    match liftEven spendPubkey with
    | none => Except.error CoreError.invalidKey
    | some y =>
      match ptAdd (some (spendPubkey, y)) (ptMul t ptG) with
      | none => Except.error CoreError.cryptoError
      | some (qx, _) => Except.ok qx

/-- Model of `XOnlyPublicKey::from_slice` on a 32-byte slice: the value
parses when it is a canonical field element that is the abscissa of a curve
point (libsecp256k1 attempts the square root and rejects non-residues). -/
def xonlyFromBytes (bs : List Nat) : Option Nat :=
  let x := beNat bs
  if x < secpP then
    match liftEven x with
    | some _ => some x
    | none => none
  else none

/-- Model of `ScanResult` (txid, vout and amount are filled by the caller
and are zero here, as in `ScanKey::check_output`). -/
structure ScanResult where
  txid : List Nat
  vout : Nat
  amount : Nat
  label : Option Nat
  tweak : List Nat
  output_pubkey : Nat
deriving DecidableEq, Repr

/-- Label loop of `ScanKey::check_output`: derive the expected output for
each label in order and stop at the first equal to the candidate. -/
def checkOutputLoop (sharedSecret : List Nat) (spendPubkey candidate : Nat) :
    List (Option Nat) → Except CoreError (Option ScanResult)
  | [] => Except.ok none
  | label :: rest =>
    match derive_output_pubkey sharedSecret spendPubkey label with
    | Except.error e => Except.error e
    | Except.ok expected =>
      if expected = candidate then
        Except.ok (some
          { txid := List.replicate 32 0, vout := 0, amount := 0,
            label := label, tweak := tweakHash sharedSecret label,
            output_pubkey := candidate })
      else checkOutputLoop sharedSecret spendPubkey candidate rest

/-- Model of `ScanKey::check_output`: scripts that are not exactly
`0x51 0x20` followed by 32 bytes yield no-match; a body that does not parse
as an x-only key is `InvalidKey`; otherwise the shared secret is computed
from the inputs and each label tried in order. -/
def check_output (secret : Nat) (script : List Nat) (spendPubkey : Nat)
    (inputs : List (Nat × Nat)) (labels : List (Option Nat)) :
    Except CoreError (Option ScanResult) :=
  if script.length ≠ 34 ∨ script.getD 0 0 ≠ 0x51 ∨ script.getD 1 0 ≠ 0x20 then
    Except.ok none
  else
    match xonlyFromBytes (script.drop 2) with
    | none => Except.error CoreError.invalidKey
    | some candidate =>
      match compute_shared_secret secret inputs with
      | Except.error e => Except.error e
      | Except.ok sharedSecret =>
        checkOutputLoop sharedSecret spendPubkey candidate labels

/-- Model of `prefix_from_xonly`: big-endian u32 from the first four bytes
of the 32-byte serialization. -/
def prefix_from_xonly (x : Nat) : Nat :=
  let bs := xonlySerialize x
  beNat [bs.getD 0 0, bs.getD 1 0, bs.getD 2 0, bs.getD 3 0]

/-- Label loop of `compute_prefixes` over labels `1..=maxLabel`. -/
def prefixesLoop (sharedSecret : List Nat) (spendPubkey : Nat) :
    List Nat → Except CoreError (List Nat)
  | [] => Except.ok []
  | m :: rest =>
    match derive_output_pubkey sharedSecret spendPubkey (some m) with
    | Except.error e => Except.error e
    | Except.ok out =>
      match prefixesLoop sharedSecret spendPubkey rest with
      | Except.error e => Except.error e
      | Except.ok tail => Except.ok (prefix_from_xonly out :: tail)

/-- Model of `compute_prefixes`: the no-label prefix followed by the
prefixes for labels 1 through `maxLabel`. -/
def compute_prefixes (secret : Nat) (spendPubkey : Nat)
    (inputs : List (Nat × Nat)) (maxLabel : Nat) : Except CoreError (List Nat) :=
  match compute_shared_secret secret inputs with
  | Except.error e => Except.error e
  | Except.ok sharedSecret =>
    match derive_output_pubkey sharedSecret spendPubkey none with
    | Except.error e => Except.error e
    | Except.ok out0 =>
      match prefixesLoop sharedSecret spendPubkey ((List.range maxLabel).map (· + 1)) with
      | Except.error e => Except.error e
      | Except.ok tail => Except.ok (prefix_from_xonly out0 :: tail)

/-- Transaction input model for the indexer: only the scriptSig bytes are
consulted by height extraction. -/
structure TxIn where
  scriptSig : List Nat
deriving DecidableEq, Repr

/-- Transaction model for the indexer: the coinbase flag
(`Transaction::is_coinbase`) and the input list. -/
structure Tx where
  isCoinbase : Bool
  inputs : List TxIn
deriving DecidableEq, Repr

/-- Two-complement interpretation of a value below 2^32 as an `i32`. -/
def toInt32 (v : Nat) : Int :=
  if v < 2147483648 then (v : Int) else (v : Int) - 4294967296

/-- Little-endian accumulation of height bytes, as the `|=` shift loop in
`extract_height_from_coinbase` computes it on `i32` (at most four bytes). -/
def leNat (bs : List Nat) : Nat := bs.foldr (fun b acc => acc * 256 + b) 0

/-- Model of `extract_height_from_coinbase` in
`whisper-server/src/indexer.rs`: `None` unless the transaction is a
coinbase with a non-empty input list whose first scriptSig starts with a
push length in 1..4 followed by at least that many bytes; otherwise the
pushed bytes little-endian as an `i32`. -/
def extract_height_from_coinbase (tx : Tx) : Option Int :=
  if ¬ tx.isCoinbase ∨ tx.inputs = [] then none
  else
    let bytes := (tx.inputs.headD ⟨[]⟩).scriptSig
    if bytes = [] then none
    else
      let len := bytes.getD 0 0
      if 0 < len ∧ len ≤ 4 ∧ bytes.length ≥ len + 1 then
        some (toInt32 (leNat ((bytes.drop 1).take len)))
      else none

/-- Height stored by `process_block`: the extracted coinbase height, or the
`unwrap_or(0)` default. -/
def process_block_height (coinbaseTx : Tx) : Int :=
  (extract_height_from_coinbase coinbaseTx).getD 0

/-- Height extraction as the specification words it (claim C8): when the
first byte of the coinbase scriptSig is a push length in 1..4 with enough
bytes following, the pushed bytes read as a little-endian integer (stored
into an `i32` column, hence two-complement above 2^31); in every other case
the height defaults to 0. -/
def bip34SpecHeight (tx : Tx) : Int :=
  match tx.isCoinbase, tx.inputs with
  | true, txin :: _ =>
    match txin.scriptSig with
    | [] => 0
    | b0 :: rest =>
      if 1 ≤ b0 ∧ b0 ≤ 4 ∧ rest.length ≥ b0 then toInt32 (leNat (rest.take b0))
      else 0
  | _, _ => 0

/-- Error type of the HTTP API (`ApiError` in `whisper-server/src/api.rs`),
with message strings dropped. -/
inductive ApiError where
  | validation : ApiError
  | database : ApiError
deriving DecidableEq, Repr

/-- Model of a `/api/v1/scan` request body. -/
structure ScanRequest where
  scan_pubkey : String
  start_height : Int
  end_height : Int
  prefixStrings : List String
  include_proofs : Option Bool
deriving DecidableEq, Repr

/-- Server configuration limits consulted by the scan handler. -/
structure ApiConfig where
  max_block_range : Int
  max_prefixes : Nat
deriving DecidableEq, Repr

/-- Candidate row as returned by the database query (the join of
`taproot_outputs` and `blocks`); the handler copies its fields through. -/
structure DbRow where
  txid : String
  vout : Int
  amount : Int
  script_pubkey : String
  block_height : Int
  block_hash : String
  timestamp : Int
deriving DecidableEq, Repr

/-- Response model of the scan endpoint; `server_time_ms` is wall-clock
time outside this embedding and fixed at 0. -/
structure ScanResponse where
  candidates : List DbRow
  scanned_blocks : List Int
  server_time_ms : Nat
deriving DecidableEq, Repr

/-- Value of a hexadecimal digit character, if any. -/
def hexDigitVal (c : Char) : Option Nat :=
  let n := c.toNat
  if 48 ≤ n ∧ n ≤ 57 then some (n - 48)
  else if 97 ≤ n ∧ n ≤ 102 then some (n - 87)
  else if 65 ≤ n ∧ n ≤ 70 then some (n - 55)
  else none

/-- Accumulate hexadecimal digits into a value; `none` on any non-digit. -/
def hexNatAux (acc : Nat) : List Char → Option Nat
  | [] => some acc
  | c :: rest =>
    match hexDigitVal c with
    | none => none
    | some d => hexNatAux (acc * 16 + d) rest

/-- Model of `i32::from_str_radix(s, 16)`: an optional sign, at least one
hexadecimal digit, and a result within the `i32` range (up to 2^31 - 1 for
positive values, magnitude up to 2^31 for negative ones); anything else is
a parse error. -/
def i32FromHexChars : List Char → Option Int
  | [] => none
  | '+' :: rest =>
    match rest, hexNatAux 0 rest with
    | _ :: _, some v => if v ≤ 2147483647 then some (v : Int) else none
    | _, _ => none
  | '-' :: rest =>
    match rest, hexNatAux 0 rest with
    | _ :: _, some v => if v ≤ 2147483648 then some (-(v : Int)) else none
    | _, _ => none
  | s =>
    match hexNatAux 0 s with
    | some v => if v ≤ 2147483647 then some (v : Int) else none
    | none => none

/-- Model of `p.trim_start_matches("0x")`: strip every leading repetition
of the two characters `0x`. -/
def trim0x : List Char → List Char
  | '0' :: 'x' :: rest => trim0x rest
  | s => s

/-- Prefix parsing in `scan_handler`:
`i32::from_str_radix(p.trim_start_matches("0x"), 16)`. -/
def parseApiHexValue (s : String) : Option Int :=
  i32FromHexChars (trim0x s.data)

/-- Collect all parsed prefixes; `none` as soon as one fails, as the
`collect::<Result<Vec<i32>, _>>` in the handler does. -/
def parseAllApiHexValues : List String → Option (List Int)
  | [] => some []
  | s :: rest =>
    match parseApiHexValue s, parseAllApiHexValues rest with
    | some v, some vs => some (v :: vs)
    | _, _ => none

/-- Count-bounded ascending run of integers starting at `a`. -/
def intRangeAux (a : Int) : Nat → List Int
  | 0 => []
  | n + 1 => a :: intRangeAux (a + 1) n

/-- Inclusive integer range `(a..=b).collect()`, empty when `a > b`. -/
def intRangeIncl (a b : Int) : List Int :=
  intRangeAux a (b + 1 - a).toNat

/-- Model of `scan_handler` in `whisper-server/src/api.rs` as a pure
function of the request and of the rows the database query returns: the
range bound, count bound and prefix parsing happen in source order; the
response carries the rows as candidates and the full inclusive block range
as `scanned_blocks`. -/
def scan_handler (cfg : ApiConfig) (req : ScanRequest) (rows : List DbRow) :
    Except ApiError ScanResponse :=
  if req.end_height - req.start_height > cfg.max_block_range then
    Except.error ApiError.validation
  else if req.prefixStrings.length > cfg.max_prefixes then
    Except.error ApiError.validation
  else
    match parseAllApiHexValues req.prefixStrings with
    | none => Except.error ApiError.validation
    | some _ =>
      Except.ok
        { candidates := rows,
          scanned_blocks := intRangeIncl req.start_height req.end_height,
          server_time_ms := 0 }

/-- Prefix the ingestor stores per Taproot output
(`process_output` in `whisper-server/src/indexer.rs`):
`i32::from_be_bytes` of the first four bytes of the x-only key. -/
def process_output_sp_prefix_val (xOnlyBytes : List Nat) : Int :=
  toInt32 (beNat (xOnlyBytes.take 4))

/-- Shared-secret accumulation as specification section 4.2 and claim C1
word it: for each input the ECDH point E = s * P (scalar multiplication of
the input public key by the scan secret, failing at infinity), the x-only
serialization hashed under the shared-secret tag, interpreted as a scalar
modulo n (failing when the reduction is zero), summed in input order. -/
def specSharedSecretLoop (secret : Nat) : List (Nat × Nat) → Except CoreError Nat
  | [] => Except.ok 0
  | input :: rest =>
    match ptMul secret (some input) with
    | none => Except.error CoreError.cryptoError
    | some (x, _) =>
      let t := beNat (taggedHash tagSharedSecret (xonlySerialize x)) % secpN
      if t = 0 then Except.error CoreError.cryptoError
      else
        match specSharedSecretLoop secret rest with
        | Except.error e => Except.error e
        | Except.ok s => Except.ok ((t + s) % secpN)

/-- Shared secret as the specification words it: `InvalidInput` for an
empty input list, otherwise the 32-byte big-endian encoding of the
accumulated scalar. -/
def specSharedSecret (secret : Nat) (inputs : List (Nat × Nat)) :
    Except CoreError (List Nat) :=
  if inputs = [] then Except.error CoreError.invalidInput
  else
    match specSharedSecretLoop secret inputs with
    | Except.error e => Except.error e
    | Except.ok s => Except.ok (beBytes 32 s)

/-- Shared secret computed by the embedded code for scan secret 2 and the
single input G (used as a concrete evaluation witness). -/
def ssLit : List Nat :=
  [51, 135, 7, 24, 73, 144, 147, 113, 4, 109, 164, 29, 127, 121, 172, 26,
   215, 143, 218, 93, 176, 10, 71, 3, 168, 242, 103, 92, 210, 254, 239, 156]

/-- Shared secret the specification formula yields for scan secret 2 and
the single input G. -/
def specSsLit : List Nat :=
  [182, 80, 164, 113, 139, 69, 176, 210, 90, 145, 88, 254, 243, 231, 73, 24,
   83, 44, 206, 32, 144, 175, 158, 155, 239, 83, 9, 8, 27, 162, 170, 189]

/-- Output key derived from `ssLit` with spend key `secpGx` and no label. -/
def outNoneLit : Nat :=
  61362457971714410396815042731340652536220567731084319166265201960860358912294

/-- Prefix vector computed for scan secret 2, spend key `secpGx`, input G
and `max_label` 1. -/
def prefixVecLit : List Nat := [2276060065, 2807481574]

/-- Length of big-endian serialization. -/
theorem beBytes_length (len x : Nat) : (beBytes len x).length = len := by
  simp [beBytes]

/-- Errors of one shared-secret step are always `CryptoError`. -/
theorem sharedSecretStep_error_crypto (secret : Nat) (acc : Option Nat)
    (input : Nat × Nat) (e : CoreError)
    (h : sharedSecretStep secret acc input = Except.error e) :
    e = CoreError.cryptoError := by
  unfold sharedSecretStep at h
  repeat' split at h
  all_goals simp_all

/-- Shared-secret loop never fails with `InvalidInput`. -/
theorem sharedSecretLoop_no_invalid (secret : Nat) :
    ∀ (l : List (Nat × Nat)) (acc : Option Nat),
      sharedSecretLoop secret acc l ≠ Except.error CoreError.invalidInput := by
  intro l
  induction l with
  | nil => intro acc h; simp [sharedSecretLoop] at h
  | cons input rest ih =>
    intro acc h
    unfold sharedSecretLoop at h
    split at h
    case _ e heq =>
      have he := Except.error.inj h
      subst he
      exact CoreError.noConfusion (sharedSecretStep_error_crypto secret acc input _ heq)
    case _ a2 heq =>
      exact ih a2 h

/-- Output derivation never fails with `InvalidInput`. -/
theorem derive_output_pubkey_no_invalid (ss : List Nat) (pb : Nat) (label : Option Nat) :
    derive_output_pubkey ss pb label ≠ Except.error CoreError.invalidInput := by
  intro h
  unfold derive_output_pubkey at h
  repeat' split at h
  all_goals simp_all

/-- Claim C2 (as amended): `derive_output_pubkey` performs no check on the
label value; a label byte of 0 is hashed like any other as `d || byte(m)`
and the function never fails with `InvalidInput`; the map from label values
to hashed data is still injective, and labeled data never collides with the
no-label data `d`, because the lengths differ. -/
theorem derive_output_label_semantics :
    ∀ (ss : List Nat) (pb : Nat) (label : Option Nat) (m m1 m2 : Nat),
      derive_output_pubkey ss pb label ≠ Except.error CoreError.invalidInput
      ∧ tweakData ss (some m) = ss ++ [m]
      ∧ tweakData ss none = ss
      ∧ (tweakData ss (some m1) = tweakData ss (some m2) → m1 = m2)
      ∧ tweakData ss (some m) ≠ tweakData ss none := by
  intro ss pb label m m1 m2
  refine ⟨derive_output_pubkey_no_invalid ss pb label, rfl, rfl, ?_, ?_⟩
  · intro h
    simpa [tweakData] using h
  · intro h
    have hlen := congrArg List.length h
    simp [tweakData] at hlen

/-- Claim C2 counterexample: at the concrete shared secret of 32 zero
bytes, spend key `secpGx` and label 0, the deriver does not fail with
`InvalidInput`, contradicting the claimed rejection of label 0. -/
theorem derive_label_zero_not_invalid_input :
    derive_output_pubkey (List.replicate 32 0) secpGx (some 0)
      ≠ Except.error CoreError.invalidInput :=
  derive_output_pubkey_no_invalid (List.replicate 32 0) secpGx (some 0)

/-- Witness for claim C2: the amended theorem applied at concrete inputs,
including a discharge of the injectivity hypothesis. -/
theorem derive_output_label_semantics_w :
    derive_output_pubkey ssLit secpGx (some 0) ≠ Except.error CoreError.invalidInput
    ∧ tweakData ssLit (some 0) ≠ tweakData ssLit none
    ∧ (5 : Nat) = 5 :=
  ⟨(derive_output_label_semantics ssLit secpGx (some 0) 0 5 5).1,
   (derive_output_label_semantics ssLit secpGx (some 0) 0 5 5).2.2.2.2,
   (derive_output_label_semantics ssLit secpGx (some 0) 0 5 5).2.2.2.1 rfl⟩

/-- Claim C6: scripts that are not exactly 34 bytes starting `0x51 0x20`
yield no-match without error; scripts of that shape whose body does not
parse as a valid x-only point fail with `InvalidKey`. -/
theorem check_output_script_filter :
    ∀ (secret : Nat) (script : List Nat) (pb : Nat) (inputs : List (Nat × Nat))
      (labels : List (Option Nat)),
      ((script.length ≠ 34 ∨ script.getD 0 0 ≠ 0x51 ∨ script.getD 1 0 ≠ 0x20) →
        check_output secret script pb inputs labels = Except.ok none)
      ∧ (script.length = 34 → script.getD 0 0 = 0x51 → script.getD 1 0 = 0x20 →
          xonlyFromBytes (script.drop 2) = none →
          check_output secret script pb inputs labels = Except.error CoreError.invalidKey) := by
  intro secret script pb inputs labels
  constructor
  · intro h
    unfold check_output
    rw [if_pos h]
  · intro h1 h2 h3 h4
    unfold check_output
    rw [if_neg ?hc, h4]
    case hc =>
      intro hc
      rcases hc with hc | hc | hc
      exacts [hc h1, hc h2, hc h3]

set_option maxRecDepth 40000 in
/-- Witness for claim C6: a two-byte script is skipped without error, and
a well-shaped script whose body is 5 (not the abscissa of any curve point)
fails with `InvalidKey`. -/
theorem check_output_script_filter_w :
    check_output 2 [0, 20] secpGx [(secpGx, secpGy)] [none] = Except.ok none
    ∧ check_output 2 (0x51 :: 0x20 :: beBytes 32 5) secpGx [(secpGx, secpGy)] [none]
        = Except.error CoreError.invalidKey :=
  ⟨(check_output_script_filter 2 [0, 20] secpGx [(secpGx, secpGy)] [none]).1
      (by decide),
   (check_output_script_filter 2 (0x51 :: 0x20 :: beBytes 32 5) secpGx
      [(secpGx, secpGy)] [none]).2 (by decide) (by decide) (by decide) (by decide)⟩

/-- Claim C7: `compute_shared_secret` fails with `InvalidInput` exactly on
the empty input list; on any non-empty list it may fail only with other
error kinds. -/
theorem compute_shared_secret_invalid_input_iff :
    ∀ (secret : Nat) (inputs : List (Nat × Nat)),
      (inputs = [] →
        compute_shared_secret secret inputs = Except.error CoreError.invalidInput)
      ∧ (inputs ≠ [] →
        compute_shared_secret secret inputs ≠ Except.error CoreError.invalidInput) := by
  intro secret inputs
  constructor
  · intro h
    subst h
    rfl
  · intro hne h
    unfold compute_shared_secret at h
    rw [if_neg hne] at h
    cases hl : sharedSecretLoop secret none inputs with
    | error e =>
      rw [hl] at h
      have he := Except.error.inj h
      subst he
      exact sharedSecretLoop_no_invalid secret inputs none hl
    | ok a =>
      cases a with
      | none =>
        rw [hl] at h
        exact CoreError.noConfusion (Except.error.inj h)
      | some s =>
        rw [hl] at h
        exact Except.noConfusion h

set_option maxRecDepth 40000 in
/-- Witness for claim C7: the empty input list yields `InvalidInput`; the
single input G does not, and in fact succeeds with a 32-byte result. -/
theorem compute_shared_secret_invalid_input_iff_w :
    compute_shared_secret 2 ([] : List (Nat × Nat)) = Except.error CoreError.invalidInput
    ∧ compute_shared_secret 2 [(secpGx, secpGy)] ≠ Except.error CoreError.invalidInput
    ∧ compute_shared_secret 2 [(secpGx, secpGy)] = Except.ok ssLit
    ∧ ssLit.length = 32 :=
  ⟨(compute_shared_secret_invalid_input_iff 2 []).1 rfl,
   (compute_shared_secret_invalid_input_iff 2 [(secpGx, secpGy)]).2 (by decide),
   by decide, by decide⟩

/-- Claim C10: with a well-formed Taproot script, a successfully parsed
body and a successful shared secret, an empty labels list yields no-match
without error. -/
theorem check_output_empty_labels :
    ∀ (secret : Nat) (script : List Nat) (pb : Nat) (inputs : List (Nat × Nat))
      (ss : List Nat) (c : Nat),
      script.length = 34 → script.getD 0 0 = 0x51 → script.getD 1 0 = 0x20 →
      xonlyFromBytes (script.drop 2) = some c →
      compute_shared_secret secret inputs = Except.ok ss →
      check_output secret script pb inputs [] = Except.ok none := by
  intro secret script pb inputs ss c h1 h2 h3 h4 h5
  unfold check_output
  rw [if_neg ?hc, h4, h5]
  case hc =>
    intro hc
    rcases hc with hc | hc | hc
    exacts [hc h1, hc h2, hc h3]
  rfl

set_option maxRecDepth 40000 in
/-- Witness for claim C10: concrete well-formed script over the base-point
abscissa, one input, empty labels. -/
theorem check_output_empty_labels_w :
    check_output 2 (0x51 :: 0x20 :: xonlySerialize secpGx) secpGx [(secpGx, secpGy)] []
      = Except.ok none :=
  check_output_empty_labels 2 (0x51 :: 0x20 :: xonlySerialize secpGx) secpGx
    [(secpGx, secpGy)] ssLit secpGx (by decide) (by decide) (by decide)
    (by decide) (by decide)

set_option maxRecDepth 40000 in
/-- Claim C4 (code evaluation at the failing input): the prefix string
`aabbccdd` denotes a 32-bit value with the top bit set; `i32::from_str_radix`
rejects it, so a request carrying it fails validation even though its range
and count bounds pass, while the ingestor stores exactly that bit pattern
as the (negative) signed `sp_prefix` of an x-only key starting
`0xAA 0xBB 0xCC 0xDD`. -/
theorem scan_handler_rejects_high_bit_hex :
    parseApiHexValue ("aabbccdd") = none
    ∧ scan_handler ⟨1000, 1000⟩ ⟨"", 0, 10, [("aabbccdd")], none⟩ []
        = Except.error ApiError.validation
    ∧ process_output_sp_prefix_val (170 :: 187 :: 204 :: 221 :: List.replicate 28 0)
        = -1430532899 :=
  ⟨by decide, by decide, by decide⟩

/-- Claim C8: the height stored by block processing agrees, on every
transaction shape, with the BIP-34 extraction as the specification words
it, including the default of 0 on every malformed case. -/
theorem process_block_height_bip34 :
    ∀ tx : Tx, process_block_height tx = bip34SpecHeight tx := by
  intro tx
  obtain ⟨cb, ins⟩ := tx
  cases cb with
  | false =>
    simp [process_block_height, extract_height_from_coinbase, bip34SpecHeight]
  | true =>
    cases ins with
    | nil =>
      simp [process_block_height, extract_height_from_coinbase, bip34SpecHeight]
    | cons txin rest =>
      obtain ⟨sig⟩ := txin
      cases sig with
      | nil =>
        simp [process_block_height, extract_height_from_coinbase, bip34SpecHeight]
      | cons b0 srest =>
        simp only [process_block_height, extract_height_from_coinbase, bip34SpecHeight,
          List.headD_cons, List.getD_cons_zero, List.drop_succ_cons, List.drop_zero,
          List.length_cons]
        rw [if_neg (by simp)]
        rw [if_neg (by simp)]
        by_cases hc : 1 ≤ b0 ∧ b0 ≤ 4 ∧ srest.length ≥ b0
        · rw [if_pos (by omega), if_pos hc]
          rfl
        · rw [if_neg (by omega), if_neg hc]
          rfl

/-- Membership in the count-bounded run. -/
theorem mem_intRangeAux :
    ∀ (n : Nat) (a h : Int), h ∈ intRangeAux a n ↔ a ≤ h ∧ h < a + n := by
  intro n
  induction n with
  | zero =>
    intro a h
    simp only [intRangeAux, List.not_mem_nil, false_iff]
    omega
  | succ k ih =>
    intro a h
    simp only [intRangeAux, List.mem_cons, ih]
    omega

/-- Membership in the inclusive integer range. -/
theorem mem_intRangeIncl (a b h : Int) : h ∈ intRangeIncl a b ↔ a ≤ h ∧ h ≤ b := by
  unfold intRangeIncl
  rw [mem_intRangeAux]
  omega

/-- Strict ordering of the count-bounded run. -/
theorem pairwise_intRangeAux :
    ∀ (n : Nat) (a : Int), List.Pairwise (· < ·) (intRangeAux a n) := by
  intro n
  induction n with
  | zero => intro a; exact List.Pairwise.nil
  | succ k ih =>
    intro a
    refine List.Pairwise.cons ?_ (ih (a + 1))
    intro x hx
    have := (mem_intRangeAux k (a + 1) x).1 hx
    omega

/-- Strict ordering of the inclusive integer range. -/
theorem pairwise_intRangeIncl (a b : Int) :
    List.Pairwise (· < ·) (intRangeIncl a b) :=
  pairwise_intRangeAux _ _

/-- Claim C9: every successful scan response reports as `scanned_blocks`
exactly the full inclusive integer range between the requested heights, in
strictly increasing order, independent of the database rows. -/
theorem scan_scanned_blocks_full_range :
    ∀ (cfg : ApiConfig) (req : ScanRequest) (rows : List DbRow) (resp : ScanResponse),
      scan_handler cfg req rows = Except.ok resp →
      resp.scanned_blocks = intRangeIncl req.start_height req.end_height
      ∧ (∀ h : Int, h ∈ resp.scanned_blocks ↔
          req.start_height ≤ h ∧ h ≤ req.end_height)
      ∧ List.Pairwise (· < ·) resp.scanned_blocks := by
  intro cfg req rows resp h
  unfold scan_handler at h
  split at h
  · exact Except.noConfusion h
  · split at h
    · exact Except.noConfusion h
    · split at h
      · exact Except.noConfusion h
      · have hr := Except.ok.inj h
        subst hr
        exact ⟨rfl, fun hh => mem_intRangeIncl _ _ hh, pairwise_intRangeIncl _ _⟩

/-- Witness for claim C9: a concrete request over heights 5..8 with an
empty database. -/
theorem scan_scanned_blocks_full_range_w :
    (⟨[], intRangeIncl 5 8, 0⟩ : ScanResponse).scanned_blocks = intRangeIncl 5 8
    ∧ ((6 : Int) ∈ (⟨[], intRangeIncl 5 8, 0⟩ : ScanResponse).scanned_blocks ↔
        (5 : Int) ≤ 6 ∧ (6 : Int) ≤ 8)
    ∧ List.Pairwise (· < ·) (⟨[], intRangeIncl 5 8, 0⟩ : ScanResponse).scanned_blocks :=
  ⟨(scan_scanned_blocks_full_range ⟨1000, 1000⟩ ⟨"", 5, 8, [], none⟩ [] _ rfl).1,
   (scan_scanned_blocks_full_range ⟨1000, 1000⟩ ⟨"", 5, 8, [], none⟩ [] _ rfl).2.1 6,
   (scan_scanned_blocks_full_range ⟨1000, 1000⟩ ⟨"", 5, 8, [], none⟩ [] _ rfl).2.2⟩

set_option maxRecDepth 40000 in
/-- Claim C1 (code evaluation at the failing input): for scan secret 2 and
the single input G, the code path (which combines the input point with the
scan key point by group addition) and the specification formula (ECDH
scalar multiplication of the input point by the scan secret) produce
different shared secrets. -/
theorem compute_shared_secret_differs_from_spec :
    compute_shared_secret 2 [(secpGx, secpGy)] = Except.ok ssLit
    ∧ specSharedSecret 2 [(secpGx, secpGy)] = Except.ok specSsLit
    ∧ ssLit ≠ specSsLit :=
  ⟨by decide, by decide, by decide⟩

/-- Label-loop step: a label whose derivation succeeds with a key other
than the candidate is skipped. -/
theorem checkOutputLoop_cons (ss : List Nat) (pb cand : Nat) (l : Option Nat)
    (rest : List (Option Nat)) (o : Nat)
    (ho : derive_output_pubkey ss pb l = Except.ok o) (hne : o ≠ cand) :
    checkOutputLoop ss pb cand (l :: rest) = checkOutputLoop ss pb cand rest := by
  conv_lhs => unfold checkOutputLoop
  simp only [ho]
  rw [if_neg hne]

/-- Label-loop prefix skip: a run of labels deriving to keys other than
the candidate leaves the loop result unchanged. -/
theorem checkOutputLoop_append_skip (ss : List Nat) (pb cand : Nat) :
    ∀ (pre rest : List (Option Nat)),
      (∀ l ∈ pre, ∃ o, derive_output_pubkey ss pb l = Except.ok o ∧ o ≠ cand) →
      checkOutputLoop ss pb cand (pre ++ rest) = checkOutputLoop ss pb cand rest := by
  intro pre
  induction pre with
  | nil => intro rest _; rfl
  | cons l pre2 ih =>
    intro rest h
    obtain ⟨o, ho, hne⟩ := h l (List.mem_cons_self l pre2)
    rw [List.cons_append, checkOutputLoop_cons ss pb cand l (pre2 ++ rest) o ho hne]
    exact ih rest (fun x hx => h x (List.mem_cons_of_mem l hx))

/-- Label-loop hit: a label deriving exactly the candidate returns the
scan result for that label. -/
theorem checkOutputLoop_found (ss : List Nat) (pb cand : Nat) (m : Option Nat)
    (rest : List (Option Nat))
    (ho : derive_output_pubkey ss pb m = Except.ok cand) :
    checkOutputLoop ss pb cand (m :: rest)
      = Except.ok (some (ScanResult.mk (List.replicate 32 0) 0 0 m (tweakHash ss m) cand)) := by
  conv_lhs => unfold checkOutputLoop
  simp [ho]

/-- Claim C3: for any shared secret computed from the inputs and any label
whose derivation succeeds, checking the Taproot script built from the
derived key — with a labels list containing that label, whose earlier
entries derive successfully to other keys — returns a scan result whose
tweak is the derivation tweak, whose label is the matched label and whose
output key is the derived key.  The parse hypothesis on the serialized
derived key holds for every derived key, since it is the abscissa of a
curve point. -/
theorem check_output_roundtrip :
    ∀ (secret : Nat) (inputs : List (Nat × Nat)) (ss : List Nat) (pb out : Nat)
      (m : Option Nat) (pre post : List (Option Nat)),
      compute_shared_secret secret inputs = Except.ok ss →
      derive_output_pubkey ss pb m = Except.ok out →
      xonlyFromBytes (xonlySerialize out) = some out →
      (∀ l ∈ pre, ∃ o, derive_output_pubkey ss pb l = Except.ok o ∧ o ≠ out) →
      check_output secret (0x51 :: 0x20 :: xonlySerialize out) pb inputs (pre ++ m :: post)
        = Except.ok (some (ScanResult.mk (List.replicate 32 0) 0 0 m (tweakHash ss m) out)) := by
  intro secret inputs ss pb out m pre post h1 h2 h3 h4
  unfold check_output
  rw [if_neg ?hc]
  case hc =>
    intro hc
    rcases hc with hc | hc | hc
    · exact hc (by simp [xonlySerialize, beBytes_length])
    · exact hc rfl
    · exact hc rfl
  have hdrop : (0x51 :: 0x20 :: xonlySerialize out).drop 2 = xonlySerialize out := rfl
  rw [hdrop, h3, h1]
  show checkOutputLoop ss pb out (pre ++ m :: post)
    = Except.ok (some (ScanResult.mk (List.replicate 32 0) 0 0 m (tweakHash ss m) out))
  rw [checkOutputLoop_append_skip ss pb out pre (m :: post) h4]
  exact checkOutputLoop_found ss pb out m post h2

set_option maxRecDepth 1000000 in
set_option maxHeartbeats 8000000 in
/-- Witness for claim C3: scan secret 2, input G, spend key `secpGx`, the
no-label derivation, and the singleton labels list. -/
theorem check_output_roundtrip_w :
    check_output 2 (0x51 :: 0x20 :: xonlySerialize outNoneLit) secpGx
        [(secpGx, secpGy)] [none]
      = Except.ok (some (ScanResult.mk (List.replicate 32 0) 0 0 none
          (tweakHash ssLit none) outNoneLit)) :=
  check_output_roundtrip 2 [(secpGx, secpGy)] ssLit secpGx outNoneLit none [] []
    (by decide) (by decide) (by decide)
    (fun l hl => absurd hl (List.not_mem_nil l))

/-- Prefix-loop characterization: on success the result has one prefix per
label, each the prefix of the successfully derived output for that label. -/
theorem prefixesLoop_spec (ss : List Nat) (pb : Nat) :
    ∀ (ms t : List Nat),
      prefixesLoop ss pb ms = Except.ok t →
      t.length = ms.length
      ∧ ∀ i, i < ms.length →
          ∃ out, derive_output_pubkey ss pb (some (ms.getD i 0)) = Except.ok out
            ∧ t.getD i 0 = prefix_from_xonly out := by
  intro ms
  induction ms with
  | nil =>
    intro t h
    simp only [prefixesLoop] at h
    have ht := Except.ok.inj h
    subst ht
    exact ⟨rfl, fun i hi => absurd hi (Nat.not_lt_zero i)⟩
  | cons m ms2 ih =>
    intro t h
    unfold prefixesLoop at h
    split at h
    · exact Except.noConfusion h
    case _ out heq =>
      split at h
      · exact Except.noConfusion h
      case _ tail heqT =>
        have ht := Except.ok.inj h
        subst ht
        obtain ⟨hlen, hspec⟩ := ih tail heqT
        refine ⟨by simp [hlen], ?_⟩
        intro i hi
        cases i with
        | zero => exact ⟨out, heq, List.getD_cons_zero⟩
        | succ j =>
          have hj : j < ms2.length := by simpa using hi
          obtain ⟨out2, ho2, ht2⟩ := hspec j hj
          exact ⟨out2, by simpa using ho2, by simpa using ht2⟩

/-- Claim C5: a successful prefix vector has exactly `1 + maxLabel`
entries; entry 0 is the big-endian first four bytes of the no-label output
key and entry `i` (for `1 ≤ i ≤ maxLabel`) that of the label-`i` output
key. -/
theorem compute_prefixes_spec :
    ∀ (secret pb : Nat) (inputs : List (Nat × Nat)) (maxLabel : Nat) (ss v : List Nat),
      compute_shared_secret secret inputs = Except.ok ss →
      compute_prefixes secret pb inputs maxLabel = Except.ok v →
      v.length = 1 + maxLabel
      ∧ (∃ out0, derive_output_pubkey ss pb none = Except.ok out0
          ∧ v.getD 0 0 = prefix_from_xonly out0)
      ∧ (∀ i, 1 ≤ i → i ≤ maxLabel →
          ∃ out, derive_output_pubkey ss pb (some i) = Except.ok out
            ∧ v.getD i 0 = prefix_from_xonly out) := by
  intro secret pb inputs maxLabel ss v h1 h2
  unfold compute_prefixes at h2
  simp only [h1] at h2
  split at h2
  · exact Except.noConfusion h2
  case _ out0 heq0 =>
    split at h2
    · exact Except.noConfusion h2
    case _ tail heqT =>
      have hv := Except.ok.inj h2
      subst hv
      obtain ⟨hlen, hspec⟩ := prefixesLoop_spec ss pb _ tail heqT
      have hmslen : ((List.range maxLabel).map (· + 1)).length = maxLabel := by simp
      refine ⟨?_, ⟨out0, heq0, List.getD_cons_zero⟩, ?_⟩
      · simp only [List.length_cons, hlen, hmslen]
        omega
      · intro i h1i himax
        obtain ⟨j, rfl⟩ : ∃ j, i = j + 1 := ⟨i - 1, by omega⟩
        have hj2 : j < ((List.range maxLabel).map (· + 1)).length := by
          rw [hmslen]
          omega
        obtain ⟨out, ho, ht⟩ := hspec j hj2
        have hms : ((List.range maxLabel).map (· + 1)).getD j 0 = j + 1 := by
          rw [List.getD_eq_getElem _ _ hj2]
          simp [List.getElem_map]
        rw [hms] at ho
        exact ⟨out, ho, by simpa using ht⟩

set_option maxRecDepth 1000000 in
set_option maxHeartbeats 8000000 in
/-- Witness for claim C5: scan secret 2, spend key `secpGx`, input G and
`max_label` 1 give the two-entry prefix vector. -/
theorem compute_prefixes_spec_w :
    prefixVecLit.length = 1 + 1
    ∧ (∃ out0, derive_output_pubkey ssLit secpGx none = Except.ok out0
        ∧ prefixVecLit.getD 0 0 = prefix_from_xonly out0)
    ∧ (∃ out, derive_output_pubkey ssLit secpGx (some 1) = Except.ok out
        ∧ prefixVecLit.getD 1 0 = prefix_from_xonly out) := by
  have T := compute_prefixes_spec 2 secpGx [(secpGx, secpGy)] 1 ssLit prefixVecLit
    (by decide) (by decide)
  exact ⟨T.1, T.2.1, T.2.2 1 (by decide) (by decide)⟩
